import Mathlib

/-!
Shallow embedding of the stream/ring-buffer core of
`src/dlls/winecoreaudio.drv/coreaudio.c` (the wine coreaudio unixlib), at
frame granularity: every byte count in the C source is a frame count times
`fmt->nBlockAlign` and every copy moves whole frames at frame-aligned
offsets, so one model cell per frame is faithful.  A `Frame` keeps its byte
contents (byte index within the frame, byte value) so that the silence
fill, which is byte-wise, stays observable.

The hardware engine (AudioUnitRender, AudioConverterFillComplexBuffer) is
external to the repository; its calls are modelled by oracle parameters
(delivered content, converter pull/produce behaviour, allocation success).
-/

namespace WineCoreAudio

/-- Byte contents of one audio frame: byte index within the frame to byte value. -/
def Frame : Type := Nat → Nat

/-- A buffer is an unbounded array of frames; only indices below the buffer's
frame capacity are meaningful. -/
def Buf : Type := Nat → Frame

/-- The all-zero buffer (freshly committed memory is zero-filled). -/
def zeroBuf : Buf := fun _ _ => 0

inductive EDataFlow where
  | eRender
  | eCapture
deriving DecidableEq

/-- The result codes the modelled operations can return. -/
inductive HResult where
  | S_OK
  | S_FALSE
  | AUDCLNT_S_BUFFER_EMPTY
  | AUDCLNT_E_OUT_OF_ORDER
  | AUDCLNT_E_INVALID_SIZE
  | AUDCLNT_E_BUFFER_TOO_LARGE
  | AUDCLNT_E_NOT_STOPPED
  | AUDCLNT_E_BUFFER_OPERATION_PENDING
  | E_OUTOFMEMORY
deriving DecidableEq

def WAVE_FORMAT_PCM : Nat := 1

def WAVE_FORMAT_EXTENSIBLE : Nat := 65534

/-- The fields of `WAVEFORMATEX` the core reads.  `subFormatIsPCM` models
`IsEqualGUID(&fmtex->SubFormat, &KSDATAFORMAT_SUBTYPE_PCM)` on the
extensible form. -/
structure Fmt where
  wFormatTag : Nat
  subFormatIsPCM : Bool
  wBitsPerSample : Nat
  nChannels : Nat
  nBlockAlign : Nat
  nSamplesPerSec : Nat
deriving DecidableEq

/-- The condition under which `silence_buffer` uses the 8-bit unsigned PCM
zero code instead of zero bytes. -/
def is_pcm8 (fmt : Fmt) : Bool :=
  (fmt.wFormatTag == WAVE_FORMAT_PCM ||
     (fmt.wFormatTag == WAVE_FORMAT_EXTENSIBLE && fmt.subFormatIsPCM))
  && fmt.wBitsPerSample == 8

/-- The byte value `silence_buffer` memsets: 128 for 8-bit PCM, 0 otherwise. -/
def silence_byte (fmt : Fmt) : Nat := if is_pcm8 fmt then 128 else 0

/-- One frame of silence. -/
def silence_frame (fmt : Fmt) : Frame := fun _ => silence_byte fmt

/-- `struct coreaudio_stream`, restricted to the fields the stream engine
reads or writes.  Offsets and counts are in frames; `written_frames` is the
`UINT64` running total; `getbuf_last` is the signed `INT32` outstanding
acquisition marker (positive: direct pointer into the ring, negative:
pointer into the scratch `tmp_buffer`). -/
structure Stream where
  flow : EDataFlow
  playing : Bool
  fmt : Fmt
  /-- `dev_desc.mSampleRate`, the audio unit's native rate. -/
  dev_sampleRate : Nat
  period_frames : Nat
  bufsize_frames : Nat
  lcl_offs_frames : Nat
  held_frames : Nat
  wri_offs_frames : Nat
  cap_bufsize_frames : Nat
  cap_offs_frames : Nat
  cap_held_frames : Nat
  written_frames : Nat
  getbuf_last : Int
  tmp_buffer_frames : Nat
  local_buffer : Buf
  cap_buffer : Buf
  tmp_buffer : Buf

/-- `memcpy` of `len` frames from `src` at `srcOff` into `dst` at `dstOff`. -/
def memcpy_frames (dst : Buf) (dstOff : Nat) (src : Buf) (srcOff len : Nat) : Buf :=
  fun i => if dstOff ≤ i ∧ i < dstOff + len then src (srcOff + (i - dstOff)) else dst i

/-- `silence_buffer` applied to the `len` frames at `off` of `b`. -/
def silence_region (b : Buf) (off len : Nat) (fmt : Fmt) : Buf :=
  fun i => if off ≤ i ∧ i < off + len then silence_frame fmt else b i

/-- `ca_wrap_buffer`: copy `src_frames` frames into the circular buffer `dst`
of capacity `dst_frames` starting at `dst_offs`, splitting the copy in two
when it straddles the ring boundary. -/
def ca_wrap_buffer (dst : Buf) (dst_offs dst_frames : Nat) (src : Buf) (src_frames : Nat) : Buf :=
  let chunk := dst_frames - dst_offs
  if chunk < src_frames then
    memcpy_frames (memcpy_frames dst dst_offs src 0 chunk) 0 src chunk (src_frames - chunk)
  else
    memcpy_frames dst dst_offs src 0 src_frames

/-- `buf_ptr_diff`: forward distance from `left` to `right` around a ring of
size `bufsize`. -/
def buf_ptr_diff (left right bufsize : Nat) : Nat :=
  if left ≤ right then right - left else bufsize - (left - right)

/-- `muldiv`, copied by the source from kernelbase: `a * b / c` in 64-bit,
rounded to nearest (half away from zero), with -1 for a zero divisor or an
out-of-range result.  C integer division truncates toward zero, hence
`Int.tdiv`. -/
def muldiv (a b c : Int) : Int :=
  if c = 0 then -1
  else
    let a' := if c < 0 then -a else a
    let c' := if c < 0 then -c else c
    let ret :=
      if (a' < 0 ∧ b < 0) ∨ (0 ≤ a' ∧ 0 ≤ b) then
        Int.tdiv (a' * b + Int.tdiv c' 2) c'
      else
        Int.tdiv (a' * b - Int.tdiv c' 2) c'
    if ret > 2147483647 ∨ ret < -2147483647 then -1 else ret

/-- `resamp_period_frames` in `capture_resample`: the `muldiv` result stored
into a `UINT32`. -/
def resamp_period (s : Stream) : Nat :=
  ((muldiv (s.period_frames : Int) (s.dev_sampleRate : Int) (s.fmt.nSamplesPerSec : Int))
    % (2 ^ 32)).toNat

/-- `ca_render_cb`: the hardware pulls `nframes` frames into `dest`.  Under
the lock: when playing, copy `min(nframes, held_frames)` frames out of the
ring at `lcl_offs_frames` (two memcpys when the span wraps), advance the
read offset modulo the ring size and shrink the held count; fill the rest
of `dest` (all of it when not playing) with silence.  Returns the stream
and the destination buffer as the callback leaves them. -/
def ca_render_cb (s : Stream) (nframes : Nat) (dest : Buf) : Stream × Buf :=
  if s.playing = true then
    let to_copy := min nframes s.held_frames
    let chunk := s.bufsize_frames - s.lcl_offs_frames
    let dest1 :=
      if chunk < to_copy then
        memcpy_frames (memcpy_frames dest 0 s.local_buffer s.lcl_offs_frames chunk)
          chunk s.local_buffer 0 (to_copy - chunk)
      else
        memcpy_frames dest 0 s.local_buffer s.lcl_offs_frames to_copy
    let dest2 := if to_copy < nframes then silence_region dest1 to_copy (nframes - to_copy) s.fmt
                 else dest1
    ({ s with lcl_offs_frames := (s.lcl_offs_frames + to_copy) % s.bufsize_frames,
              held_frames := s.held_frames - to_copy }, dest2)
  else
    (s, if 0 < nframes then silence_region dest 0 nframes s.fmt else dest)

/-- `ca_capture_cb`: the hardware delivers `nframes` freshly captured frames
(`input`, via `AudioUnitRender`, whose success is `renderOk`).  When not
playing, or when the natural span would wrap the raw ring, delivery goes to
the wrap scratch buffer; when playing the data is (wrap-)committed to the
raw capture ring with the saturating overrun policy. -/
def ca_capture_cb (s : Stream) (nframes : Nat) (input : Buf) (renderOk : Bool) : Stream :=
  let cap_wri := (s.cap_offs_frames + s.cap_held_frames) % s.cap_bufsize_frames
  let wrapPath := s.playing = false ∨ cap_wri + nframes > s.cap_bufsize_frames
  if renderOk = false then s
  else if s.playing = true then
    let cb :=
      if wrapPath then ca_wrap_buffer s.cap_buffer cap_wri s.cap_bufsize_frames input nframes
      else memcpy_frames s.cap_buffer cap_wri input 0 nframes
    let held' := s.cap_held_frames + nframes
    if held' > s.cap_bufsize_frames then
      { s with cap_buffer := cb,
               cap_offs_frames := (s.cap_offs_frames + held' % s.cap_bufsize_frames)
                                    % s.cap_bufsize_frames,
               cap_held_frames := s.cap_bufsize_frames }
    else
      { s with cap_buffer := cb, cap_held_frames := held' }
  else s

/-- One call of the external format converter inside `capture_resample`:
whether `AudioConverterFillComplexBuffer` succeeds, how many raw source
frames it pulls through `feed_cb` in total, how many client-rate frames it
produces (at most the amount requested), and their contents. -/
structure ConvStep where
  ok : Bool
  pull : Nat
  produced : Nat
  out : Buf

/-- `feed_cb`'s aggregate effect on the raw capture ring for one converter
call pulling `pull` frames: the pull is clamped to `cap_held_frames`, the
read offset advances modulo the raw ring size and the held count shrinks
(a zero-frame pull returns without touching the ring). -/
def resample_feed (s : Stream) (pull : Nat) : Stream :=
  let consumed := min pull s.cap_held_frames
  if consumed = 0 then s
  else
    { s with cap_offs_frames := (s.cap_offs_frames + consumed) % s.cap_bufsize_frames,
             cap_held_frames := s.cap_held_frames - consumed }

/-- The tail of one `capture_resample` iteration: wrap-copy the converter's
`wanted` output frames into the client ring at the write offset, advance
the write offset modulo the ring size, and grow the held count, saturating
at the ring capacity by advancing the read offset to the write offset's
forward distance (the overrun policy; note the source takes no modulus on
`lcl_offs_frames` here). -/
def resample_insert (s : Stream) (out : Buf) (wanted : Nat) : Stream :=
  let lb := ca_wrap_buffer s.local_buffer s.wri_offs_frames s.bufsize_frames out wanted
  let wri' := (s.wri_offs_frames + wanted) % s.bufsize_frames
  if s.held_frames + wanted > s.bufsize_frames then
    { s with local_buffer := lb, wri_offs_frames := wri',
             lcl_offs_frames := s.lcl_offs_frames
                                  + buf_ptr_diff s.lcl_offs_frames wri' s.bufsize_frames,
             held_frames := s.bufsize_frames }
  else
    { s with local_buffer := lb, wri_offs_frames := wri',
             held_frames := s.held_frames + wanted }

/-- The `while` loop of `capture_resample`, fuelled (the C loop has no fuel;
`capture_resample` below supplies enough fuel that the two agree whenever
every converter call consumes at least one raw frame, which is proved as
the termination property).  `k` indexes the converter oracle. -/
def capture_resample_loop (oracle : Nat → ConvStep) (rp : Nat) : Nat → Nat → Stream → Stream
  | _, 0, s => s
  | k, fuel + 1, s =>
    if s.cap_held_frames > rp * 2 then
      let step := oracle k
      let s1 := resample_feed s step.pull
      if step.ok = true then
        capture_resample_loop oracle rp (k + 1) fuel
          (resample_insert s1 step.out (min step.produced s.period_frames))
      else s1
    else s

/-- `capture_resample`: convert raw capture frames into client-period-sized
chunks while the raw ring holds strictly more than twice the resampling
period, stopping early on a converter failure. -/
def capture_resample (oracle : Nat → ConvStep) (s : Stream) : Stream :=
  capture_resample_loop oracle (resamp_period s) 0 (s.cap_held_frames + 1) s

/-- `get_current_padding_nolock`, state part: a capture stream drains the
resampler first; the padding value is the resulting `held_frames`. -/
def pad_state (oracle : Nat → ConvStep) (s : Stream) : Stream :=
  if s.flow = EDataFlow.eCapture then capture_resample oracle s else s

/-- The pointer an acquisition hands to the client: none, a direct pointer
into the client ring at a frame offset, or the scratch `tmp_buffer`. -/
inductive BufPtr where
  | null
  | ringAt (off : Nat)
  | tmpBuf
deriving DecidableEq

/-- Frame `i` of the contiguous region a `BufPtr` designates in stream `s`. -/
def read_ptr (s : Stream) (p : BufPtr) (i : Nat) : Frame :=
  match p with
  | BufPtr.null => fun _ => 0
  | BufPtr.ringAt off => s.local_buffer (off + i)
  | BufPtr.tmpBuf => s.tmp_buffer i

/-- `get_render_buffer` (AcquireRender).  `allocOk` models the success of
`NtAllocateVirtualMemory` when the scratch buffer must grow; fresh memory
is zero-filled, and a failed growth leaves the old scratch freed.  The two
sum comparisons are UINT32 arithmetic in the source (`pad`,
`params->frames`, `wri_offs_frames` are all `UINT32`), so both sums wrap
modulo `2^32`.  Returns the stream, the result code, and the pointer
handed to the client. -/
def get_render_buffer (oracle : Nat → ConvStep) (s0 : Stream) (frames : Nat)
    (allocOk : Bool) : Stream × HResult × BufPtr :=
  let s := pad_state oracle s0
  let pad := s.held_frames
  if s.getbuf_last ≠ 0 then (s, HResult.AUDCLNT_E_OUT_OF_ORDER, BufPtr.null)
  else if frames = 0 then (s, HResult.S_OK, BufPtr.null)
  else if (pad + frames) % 2 ^ 32 > s.bufsize_frames then
    (s, HResult.AUDCLNT_E_BUFFER_TOO_LARGE, BufPtr.null)
  else if (s.wri_offs_frames + frames) % 2 ^ 32 > s.bufsize_frames then
    if s.tmp_buffer_frames < frames then
      if allocOk = true then
        let s1 := { s with tmp_buffer := silence_region zeroBuf 0 frames s.fmt,
                           tmp_buffer_frames := frames,
                           getbuf_last := -(frames : Int) }
        (s1, HResult.S_OK, BufPtr.tmpBuf)
      else
        ({ s with tmp_buffer := zeroBuf, tmp_buffer_frames := 0 },
         HResult.E_OUTOFMEMORY, BufPtr.null)
    else
      let s1 := { s with tmp_buffer := silence_region s.tmp_buffer 0 frames s.fmt,
                         getbuf_last := -(frames : Int) }
      (s1, HResult.S_OK, BufPtr.tmpBuf)
  else
    let s1 := { s with local_buffer := silence_region s.local_buffer s.wri_offs_frames frames s.fmt,
                       getbuf_last := (frames : Int) }
    (s1, HResult.S_OK, BufPtr.ringAt s.wri_offs_frames)

/-- `release_render_buffer` (ReleaseRender).  A zero-frame release abandons
the acquisition; otherwise the frame count may not exceed the magnitude of
the outstanding marker; on success the written region (the scratch buffer
for an indirect acquisition, silenced first when the silent flag is set) is
committed and the write offset, held count and written count advance. -/
def release_render_buffer (s : Stream) (frames : Nat) (silent : Bool) : Stream × HResult :=
  if frames = 0 then ({ s with getbuf_last := 0 }, HResult.S_OK)
  else if s.getbuf_last = 0 then (s, HResult.AUDCLNT_E_OUT_OF_ORDER)
  else if s.getbuf_last.natAbs < frames then (s, HResult.AUDCLNT_E_INVALID_SIZE)
  else
    let s1 :=
      if silent = true then
        if 0 ≤ s.getbuf_last then
          { s with local_buffer := silence_region s.local_buffer s.wri_offs_frames frames s.fmt }
        else
          { s with tmp_buffer := silence_region s.tmp_buffer 0 frames s.fmt }
      else s
    let s2 :=
      if s.getbuf_last < 0 then
        { s1 with local_buffer := ca_wrap_buffer s1.local_buffer s1.wri_offs_frames
                                    s1.bufsize_frames s1.tmp_buffer frames }
      else s1
    ({ s2 with wri_offs_frames := (s2.wri_offs_frames + frames) % s2.bufsize_frames,
               held_frames := s2.held_frames + frames,
               written_frames := s2.written_frames + frames,
               getbuf_last := 0 }, HResult.S_OK)

/-- Everything `get_capture_buffer` returns: the stream afterwards, the
result code, the frame count and data pointer handed out, and the reported
device position and converted QPC timestamp. -/
structure CaptureAcq where
  st : Stream
  result : HResult
  frames : Nat
  data : BufPtr
  devpos : Nat
  qpcpos : Nat

/-- `get_capture_buffer` (AcquireCapture).  Fails out of order before any
drain; then drains the resampler; with less than a period held it reports
the empty-buffer status with zero frames; otherwise it hands out exactly
one period (copied into the scratch buffer when the span wraps), records
the acquisition, and reports `written_frames` and the timestamp
`stamp * 10^7 / freq` from the performance counter (`stamp`, `freq` model
`NtQueryPerformanceCounter`; the scratch buffer is modelled as already
committed). -/
def get_capture_buffer (oracle : Nat → ConvStep) (s : Stream) (stamp freq : Nat) : CaptureAcq :=
  if s.getbuf_last ≠ 0 then ⟨s, HResult.AUDCLNT_E_OUT_OF_ORDER, 0, BufPtr.null, 0, 0⟩
  else
    let sd := capture_resample oracle s
    if sd.held_frames < sd.period_frames then
      ⟨sd, HResult.AUDCLNT_S_BUFFER_EMPTY, 0, BufPtr.null, 0, 0⟩
    else
      let chunk := sd.bufsize_frames - sd.lcl_offs_frames
      if chunk < sd.period_frames then
        let tmp1 := memcpy_frames sd.tmp_buffer 0 sd.local_buffer sd.lcl_offs_frames chunk
        let tmp2 := memcpy_frames tmp1 chunk sd.local_buffer 0 (sd.period_frames - chunk)
        ⟨{ sd with tmp_buffer := tmp2, getbuf_last := (sd.period_frames : Int) },
         HResult.S_OK, sd.period_frames, BufPtr.tmpBuf, sd.written_frames,
         stamp * 10000000 / freq⟩
      else
        ⟨{ sd with getbuf_last := (sd.period_frames : Int) },
         HResult.S_OK, sd.period_frames, BufPtr.ringAt sd.lcl_offs_frames, sd.written_frames,
         stamp * 10000000 / freq⟩

/-- `release_capture_buffer` (ReleaseCapture).  Zero frames abandons the
acquisition; a nonzero count must equal the outstanding marker exactly; on
success the read offset advances modulo the ring size and the held and
written counts are adjusted. -/
def release_capture_buffer (s : Stream) (done : Nat) : Stream × HResult :=
  if done = 0 then ({ s with getbuf_last := 0 }, HResult.S_OK)
  else if s.getbuf_last = 0 then (s, HResult.AUDCLNT_E_OUT_OF_ORDER)
  else if s.getbuf_last ≠ (done : Int) then (s, HResult.AUDCLNT_E_INVALID_SIZE)
  else
    ({ s with written_frames := s.written_frames + done,
              held_frames := s.held_frames - done,
              lcl_offs_frames := (s.lcl_offs_frames + done) % s.bufsize_frames,
              getbuf_last := 0 }, HResult.S_OK)

/-- `start`: fails when already playing, else sets the playing flag. -/
def start (s : Stream) : Stream × HResult :=
  if s.playing = true then (s, HResult.AUDCLNT_E_NOT_STOPPED)
  else ({ s with playing := true }, HResult.S_OK)

/-- `stop`: idempotent; reports `S_FALSE` when already stopped. -/
def stop (s : Stream) : Stream × HResult :=
  if s.playing = false then (s, HResult.S_FALSE)
  else ({ s with playing := false }, HResult.S_OK)

/-- `reset`: fails while playing or with an acquisition outstanding; else
zeros both rings' offsets and held counts, zeroing `written_frames` for a
render stream and folding the held frames into it for a capture stream. -/
def reset (s : Stream) : Stream × HResult :=
  if s.playing = true then (s, HResult.AUDCLNT_E_NOT_STOPPED)
  else if s.getbuf_last ≠ 0 then (s, HResult.AUDCLNT_E_BUFFER_OPERATION_PENDING)
  else
    ({ s with written_frames := if s.flow = EDataFlow.eRender then 0
                                else s.written_frames + s.held_frames,
              held_frames := 0, lcl_offs_frames := 0, wri_offs_frames := 0,
              cap_offs_frames := 0, cap_held_frames := 0 }, HResult.S_OK)

/-- The client ring invariants of the data model: held count bounded by the
capacity, both offsets inside the ring, and the write offset determined by
read offset plus held count modulo the capacity. -/
def ring_inv (s : Stream) : Prop :=
  s.held_frames ≤ s.bufsize_frames ∧
  s.lcl_offs_frames < s.bufsize_frames ∧
  s.wri_offs_frames < s.bufsize_frames ∧
  s.wri_offs_frames = (s.lcl_offs_frames + s.held_frames) % s.bufsize_frames

instance (s : Stream) : Decidable (ring_inv s) := by unfold ring_inv; infer_instance

/-- The raw capture ring invariants (its write offset is derived, so only
the held bound and the read offset range are state). -/
def cap_inv (s : Stream) : Prop :=
  s.cap_held_frames ≤ s.cap_bufsize_frames ∧
  s.cap_offs_frames < s.cap_bufsize_frames

instance (s : Stream) : Decidable (cap_inv s) := by unfold cap_inv; infer_instance

/-- Equality of the client-visible shared state enumerated by the
error-recoverability property: both rings' offsets and held counts, the
written count, the outstanding-acquisition marker, and the playing flag. -/
def visible_eq (a b : Stream) : Prop :=
  a.lcl_offs_frames = b.lcl_offs_frames ∧
  a.wri_offs_frames = b.wri_offs_frames ∧
  a.held_frames = b.held_frames ∧
  a.cap_offs_frames = b.cap_offs_frames ∧
  a.cap_held_frames = b.cap_held_frames ∧
  a.written_frames = b.written_frames ∧
  a.getbuf_last = b.getbuf_last ∧
  a.playing = b.playing

theorem memcpy_frames_hit (dst : Buf) (dstOff : Nat) (src : Buf) (srcOff len i : Nat)
    (h1 : dstOff ≤ i) (h2 : i < dstOff + len) :
    memcpy_frames dst dstOff src srcOff len i = src (srcOff + (i - dstOff)) := by
  simp only [memcpy_frames]
  rw [if_pos ⟨h1, h2⟩]

theorem memcpy_frames_miss (dst : Buf) (dstOff : Nat) (src : Buf) (srcOff len i : Nat)
    (h : ¬ (dstOff ≤ i ∧ i < dstOff + len)) :
    memcpy_frames dst dstOff src srcOff len i = dst i := by
  simp only [memcpy_frames]
  rw [if_neg h]

theorem silence_region_hit (b : Buf) (off len : Nat) (fmt : Fmt) (i : Nat)
    (h1 : off ≤ i) (h2 : i < off + len) :
    silence_region b off len fmt i = silence_frame fmt := by
  simp only [silence_region]
  rw [if_pos ⟨h1, h2⟩]

theorem silence_region_miss (b : Buf) (off len : Nat) (fmt : Fmt) (i : Nat)
    (h : ¬ (off ≤ i ∧ i < off + len)) :
    silence_region b off len fmt i = b i := by
  simp only [silence_region]
  rw [if_neg h]

/-- Reading back through the ring: after a wrap copy of `n ≤ B` frames at
offset `off < B`, frame `i < n` of the copied span sits at ring position
`(off + i) % B` and equals source frame `i`. -/
theorem ca_wrap_buffer_read (dst : Buf) (off B : Nat) (src : Buf) (n : Nat)
    (hoff : off < B) (hn : n ≤ B) (i : Nat) (hi : i < n) :
    ca_wrap_buffer dst off B src n ((off + i) % B) = src i := by
  simp only [ca_wrap_buffer]
  by_cases hwrap : B - off < n
  · rw [if_pos hwrap]
    by_cases hic : i < B - off
    · have hmod : (off + i) % B = off + i := Nat.mod_eq_of_lt (by omega)
      have h2 := memcpy_frames_miss (memcpy_frames dst off src 0 (B - off)) 0 src
        (B - off) (n - (B - off)) (off + i) (by omega)
      have h3 := memcpy_frames_hit dst off src 0 (B - off) (off + i) (by omega) (by omega)
      have hidx : 0 + (off + i - off) = i := by omega
      rw [hmod, h2, h3, hidx]
    · have hmod : (off + i) % B = off + i - B := by
        rw [Nat.mod_eq_sub_mod (by omega), Nat.mod_eq_of_lt (by omega)]
      have h2 := memcpy_frames_hit (memcpy_frames dst off src 0 (B - off)) 0 src
        (B - off) (n - (B - off)) (off + i - B) (by omega) (by omega)
      have hidx : B - off + (off + i - B - 0) = i := by omega
      rw [hmod, h2, hidx]
  · rw [if_neg hwrap]
    have hmod : (off + i) % B = off + i := Nat.mod_eq_of_lt (by omega)
    have h2 := memcpy_frames_hit dst off src 0 n (off + i) (by omega) (by omega)
    have hidx : 0 + (off + i - off) = i := by omega
    rw [hmod, h2, hidx]

theorem silence_frame_val (fmt : Fmt) (b : Nat) :
    silence_frame fmt b
      = if ((fmt.wFormatTag = WAVE_FORMAT_PCM ∨
             (fmt.wFormatTag = WAVE_FORMAT_EXTENSIBLE ∧ fmt.subFormatIsPCM = true)) ∧
            fmt.wBitsPerSample = 8) then 128 else 0 := by
  have hiff : (is_pcm8 fmt = true)
      ↔ ((fmt.wFormatTag = WAVE_FORMAT_PCM ∨
          (fmt.wFormatTag = WAVE_FORMAT_EXTENSIBLE ∧ fmt.subFormatIsPCM = true)) ∧
         fmt.wBitsPerSample = 8) := by
    simp [is_pcm8, Bool.and_eq_true, Bool.or_eq_true, beq_iff_eq, and_comm]
  simp only [silence_frame, silence_byte]
  exact if_congr hiff rfl rfl

/-- A 16-bit stereo PCM format at 48 kHz. -/
def fmtEx : Fmt :=
  { wFormatTag := 1, subFormatIsPCM := false, wBitsPerSample := 16,
    nChannels := 2, nBlockAlign := 4, nSamplesPerSec := 48000 }

/-- A small concrete stream used by the witnesses: render direction,
10-frame ring, 4-frame period, hardware and client rates equal. -/
def baseStream : Stream :=
  { flow := EDataFlow.eRender, playing := false, fmt := fmtEx,
    dev_sampleRate := 48000, period_frames := 4, bufsize_frames := 10,
    lcl_offs_frames := 0, held_frames := 0, wri_offs_frames := 0,
    cap_bufsize_frames := 100, cap_offs_frames := 0, cap_held_frames := 0,
    written_frames := 0, getbuf_last := 0, tmp_buffer_frames := 0,
    local_buffer := zeroBuf, cap_buffer := zeroBuf, tmp_buffer := zeroBuf }

/-- A converter oracle that always succeeds, pulling 40 raw frames to
produce the 4 requested ones. -/
def bugOracle : Nat → ConvStep := fun _ => ⟨true, 40, 4, zeroBuf⟩

/-- A capture stream satisfying both rings' invariants whose client ring is
full (`held = bufsize = 10`) with read offset 6, and whose raw ring holds
42 frames: the state reached from a fresh stream by five drained chunks
and one released capture period when the client stops draining. -/
def bugStream : Stream :=
  { baseStream with flow := EDataFlow.eCapture, lcl_offs_frames := 6,
                    held_frames := 10, wri_offs_frames := 6, cap_held_frames := 42 }

/-- C2: the claim that every operation keeps both offsets of the client
ring inside `[0, bufferFrames)` fails on `capture_resample`: its client-ring
overrun path adds `buf_ptr_diff` to `lcl_offs_frames` without a final
modulus, so from the invariant-satisfying state `bugStream` (ring size 10,
read offset 6, ring full, 42 raw frames pending) one successful conversion
leaves `lcl_offs_frames = 10 = bufsize_frames`, outside the ring. -/
theorem c2_capture_resample_offset_escape :
    ring_inv bugStream ∧ cap_inv bugStream ∧
    (capture_resample bugOracle bugStream).lcl_offs_frames = bugStream.bufsize_frames ∧
    ¬ ring_inv (capture_resample bugOracle bugStream) := by
  decide

/-- Render stream with one frame of padding at read offset 0, for the C1
counterexample (the ring invariants hold: `wri = (0 + 1) % 10 = 1`). -/
def padStream : Stream :=
  { baseStream with held_frames := 1, wri_offs_frames := 1 }

/-- C1, counterexample: with one frame of padding, a request of
`2^32 - 1` frames makes the UINT32 sum `pad + frames` wrap to 0, so the
`BufferTooLarge` check passes although
`currentPadding + framesRequested = 2^32 > bufferFrames`, and the
acquisition succeeds instead of failing. -/
theorem c1_wrap_counterexample :
    padStream.getbuf_last = 0 ∧
    padStream.bufsize_frames < padStream.held_frames + 4294967295 ∧
    (get_render_buffer bugOracle padStream 4294967295 true).2.1 = HResult.S_OK := by
  decide

/-- C1, amended: `AcquireRender` on a render stream fails `OutOfOrder`
whenever an acquisition is outstanding; fails `BufferTooLarge` when the
current padding plus the request exceeds the ring capacity (nothing
outstanding) provided the UINT32 sum does not wrap
(`currentPadding + framesRequested < 2^32`); and a zero-frame request
succeeds with the stream left exactly as it was, no acquisition
recorded. -/
theorem c1_get_render_buffer_checks (oracle : Nat → ConvStep) (s : Stream) (f : Nat)
    (aOk : Bool) (hflow : s.flow = EDataFlow.eRender)
    (hheld : s.held_frames ≤ s.bufsize_frames) :
    (s.getbuf_last ≠ 0 →
       (get_render_buffer oracle s f aOk).2.1 = HResult.AUDCLNT_E_OUT_OF_ORDER)
  ∧ (s.getbuf_last = 0 → s.held_frames + f > s.bufsize_frames →
       s.held_frames + f < 2 ^ 32 →
       (get_render_buffer oracle s f aOk).2.1 = HResult.AUDCLNT_E_BUFFER_TOO_LARGE)
  ∧ (s.getbuf_last = 0 → f = 0 →
       get_render_buffer oracle s f aOk = (s, HResult.S_OK, BufPtr.null)) := by
  have hps : pad_state oracle s = s := by
    simp [pad_state, hflow]
  refine ⟨?_, ?_, ?_⟩
  · intro h1
    simp [get_render_buffer, hps, h1]
  · intro h1 h2 h3
    have hf : ¬ f = 0 := by omega
    have hmod : (s.held_frames + f) % 4294967296 = s.held_frames + f :=
      Nat.mod_eq_of_lt (by omega)
    simp [get_render_buffer, hps, h1, hf, hmod, h2]
  · intro h1 h2
    simp [get_render_buffer, hps, h1, h2]

/-- Witness for C1: on the idle `baseStream` a zero-frame acquisition
returns success and leaves the stream untouched. -/
theorem c1_get_render_buffer_checks_w :
    get_render_buffer bugOracle baseStream 0 true = (baseStream, HResult.S_OK, BufPtr.null) :=
  (c1_get_render_buffer_checks bugOracle baseStream 0 true rfl (by decide)).2.2 rfl rfl

/-- Reading `t ≤ B` frames out of the ring `src` starting at `off < B` with
the render callback's two-memcpy split equals the contiguous modular read:
destination frame `i < t` is ring frame `(off + i) % B`. -/
theorem ring_read_copy (dst src : Buf) (off B t : Nat)
    (hoff : off < B) (ht : t ≤ B) (i : Nat) (hi : i < t) :
    (if B - off < t then
       memcpy_frames (memcpy_frames dst 0 src off (B - off)) (B - off) src 0 (t - (B - off))
     else memcpy_frames dst 0 src off t) i
      = src ((off + i) % B) := by
  by_cases hw : B - off < t
  · rw [if_pos hw]
    by_cases hic : i < B - off
    · rw [memcpy_frames_miss _ _ _ _ _ _ (by omega),
          memcpy_frames_hit _ _ _ _ _ _ (by omega) (by omega)]
      have hmod : (off + i) % B = off + i := Nat.mod_eq_of_lt (by omega)
      have hidx : off + (i - 0) = off + i := by omega
      rw [hmod, hidx]
    · rw [memcpy_frames_hit _ _ _ _ _ _ (by omega) (by omega)]
      have hmod : (off + i) % B = off + i - B := by
        rw [Nat.mod_eq_sub_mod (by omega), Nat.mod_eq_of_lt (by omega)]
      have hidx : 0 + (i - (B - off)) = off + i - B := by omega
      rw [hmod, hidx]
  · rw [if_neg hw, memcpy_frames_hit _ _ _ _ _ _ (by omega) (by omega)]
    have hmod : (off + i) % B = off + i := Nat.mod_eq_of_lt (by omega)
    have hidx : off + (i - 0) = off + i := by omega
    rw [hmod, hidx]

/-- C3: the render callback.  When playing, exactly `min(N, held)` frames
leave the ring starting at the read offset (the two-memcpy split equals a
contiguous modular read), the read offset advances by that amount modulo
the ring size, the held count shrinks by it, and the tail of the
destination is silence; when not playing, the stream is untouched and all
`N` frames are silence; silence bytes are 128 exactly for 8-bit PCM and 0
for every other format. -/
theorem c3_ca_render_cb (s : Stream) (N : Nat) (dest : Buf)
    (hlcl : s.lcl_offs_frames < s.bufsize_frames)
    (hheld : s.held_frames ≤ s.bufsize_frames) :
    (s.playing = true →
       ((ca_render_cb s N dest).1.lcl_offs_frames
           = (s.lcl_offs_frames + min N s.held_frames) % s.bufsize_frames ∧
        (ca_render_cb s N dest).1.held_frames = s.held_frames - min N s.held_frames ∧
        (∀ i, i < min N s.held_frames →
           (ca_render_cb s N dest).2 i
             = s.local_buffer ((s.lcl_offs_frames + i) % s.bufsize_frames)) ∧
        (∀ i, min N s.held_frames ≤ i → i < N →
           (ca_render_cb s N dest).2 i = silence_frame s.fmt)))
  ∧ (s.playing = false →
       ((ca_render_cb s N dest).1 = s ∧
        ∀ i, i < N → (ca_render_cb s N dest).2 i = silence_frame s.fmt))
  ∧ (∀ b, silence_frame s.fmt b
       = if ((s.fmt.wFormatTag = WAVE_FORMAT_PCM ∨
              (s.fmt.wFormatTag = WAVE_FORMAT_EXTENSIBLE ∧ s.fmt.subFormatIsPCM = true)) ∧
             s.fmt.wBitsPerSample = 8) then 128 else 0) := by
  refine ⟨?_, ?_, fun b => silence_frame_val s.fmt b⟩
  · intro h
    refine ⟨by simp [ca_render_cb, h], by simp [ca_render_cb, h], ?_, ?_⟩
    · intro i hi
      have hts : min N s.held_frames ≤ s.held_frames := Nat.min_le_right _ _
      have hcopy := ring_read_copy dest s.local_buffer s.lcl_offs_frames s.bufsize_frames
        (min N s.held_frames) hlcl (by omega) i hi
      simp only [ca_render_cb, h, if_true]
      rw [apply_ite (fun f : Buf => f i)]
      by_cases hNt : min N s.held_frames < N
      · rw [if_pos hNt, silence_region_miss _ _ _ _ _ (by omega)]
        exact hcopy
      · rw [if_neg hNt]
        exact hcopy
    · intro i hti hiN
      simp only [ca_render_cb, h, if_true]
      rw [apply_ite (fun f : Buf => f i)]
      rw [if_pos (show min N s.held_frames < N by omega)]
      exact silence_region_hit _ _ _ _ i (by omega) (by omega)
  · intro h
    refine ⟨by simp [ca_render_cb, h], ?_⟩
    intro i hi
    have h0 : 0 < N := by omega
    simp only [ca_render_cb, h, Bool.false_eq_true, if_false, h0, if_true]
    exact silence_region_hit _ _ _ _ i (by omega) (by omega)

/-- Witness for C3: on a playing 10-frame stream whose ring holds 7 frames
from read offset 8, a pull of 5 frames hits the wrap split; frame 3 of the
destination comes from ring position `(8 + 3) % 10 = 1`. -/
theorem c3_ca_render_cb_w :
    (ca_render_cb { baseStream with playing := true, lcl_offs_frames := 8,
                                    held_frames := 7, wri_offs_frames := 5 } 5 zeroBuf).2 3
      = ({ baseStream with playing := true, lcl_offs_frames := 8,
                           held_frames := 7, wri_offs_frames := 5 } : Stream).local_buffer 1 :=
  ((c3_ca_render_cb { baseStream with playing := true, lcl_offs_frames := 8,
                                      held_frames := 7, wri_offs_frames := 5 } 5 zeroBuf
      (by decide) (by decide)).1 rfl).2.2.1 3 (by decide)

/-- C4: `ReleaseRender`.  With an acquisition outstanding, a request beyond
its magnitude fails `InvalidSize`; a release of `0 < f ≤` magnitude
succeeds, advancing the write offset modulo the ring size, growing the held
and written counts by `f`, clearing the marker, and (for an indirect,
non-silenced acquisition) committing the scratch frames into the ring at
the write offset; with nothing outstanding a positive release fails
`OutOfOrder`. -/
theorem c4_release_render_buffer (s : Stream) (f : Nat) (silent : Bool)
    (hwri : s.wri_offs_frames < s.bufsize_frames) (hf : f ≤ s.bufsize_frames) :
    (s.getbuf_last = 0 → 0 < f →
       (release_render_buffer s f silent).2 = HResult.AUDCLNT_E_OUT_OF_ORDER)
  ∧ (s.getbuf_last ≠ 0 → s.getbuf_last.natAbs < f →
       (release_render_buffer s f silent).2 = HResult.AUDCLNT_E_INVALID_SIZE)
  ∧ (s.getbuf_last ≠ 0 → 0 < f → f ≤ s.getbuf_last.natAbs →
       ((release_render_buffer s f silent).2 = HResult.S_OK ∧
        (release_render_buffer s f silent).1.wri_offs_frames
            = (s.wri_offs_frames + f) % s.bufsize_frames ∧
        (release_render_buffer s f silent).1.held_frames = s.held_frames + f ∧
        (release_render_buffer s f silent).1.written_frames = s.written_frames + f ∧
        (release_render_buffer s f silent).1.getbuf_last = 0 ∧
        (s.getbuf_last < 0 → silent = false →
           ∀ i, i < f →
             (release_render_buffer s f silent).1.local_buffer
                 ((s.wri_offs_frames + i) % s.bufsize_frames)
               = s.tmp_buffer i))) := by
  refine ⟨?_, ?_, ?_⟩
  · intro h1 h2
    have hne : ¬ f = 0 := by omega
    simp [release_render_buffer, hne, h1]
  · intro h1 h2
    have hne : ¬ f = 0 := by omega
    simp [release_render_buffer, hne, h1, h2]
  · intro h1 h2 h3
    have hne : ¬ f = 0 := by omega
    have hnlt : ¬ s.getbuf_last.natAbs < f := by omega
    by_cases hneg : s.getbuf_last < 0
    · have hnpos : ¬ (0 : Int) ≤ s.getbuf_last := by omega
      cases hsil : silent
      · refine ⟨?_, ?_, ?_, ?_, ?_, ?_⟩ <;>
          simp [release_render_buffer, hne, h1, hnlt, hneg, hnpos]
        intro i hif
        exact ca_wrap_buffer_read s.local_buffer s.wri_offs_frames s.bufsize_frames
          s.tmp_buffer f hwri hf i hif
      · refine ⟨?_, ?_, ?_, ?_, ?_, ?_⟩ <;>
          simp [release_render_buffer, hne, h1, hnlt, hneg, hnpos]
    · have hpos : (0 : Int) ≤ s.getbuf_last := by omega
      cases hsil : silent <;>
        refine ⟨?_, ?_, ?_, ?_, ?_, ?_⟩ <;>
          simp [release_render_buffer, hne, h1, hnlt, hneg, hpos]

/-- Example stream for the C4 witness: an indirect acquisition of 4 frames
at write offset 8 of the 10-frame ring. -/
def relW : Stream :=
  { baseStream with getbuf_last := -4, wri_offs_frames := 8 }

/-- Witness for C4: releasing the 4 outstanding frames of `relW` grows the
held count by 4 and commits scratch frame 1 to ring position `(8+1) % 10`. -/
theorem c4_release_render_buffer_w :
    (release_render_buffer relW 4 false).1.held_frames = relW.held_frames + 4 ∧
    (release_render_buffer relW 4 false).1.local_buffer
        ((relW.wri_offs_frames + 1) % relW.bufsize_frames)
      = relW.tmp_buffer 1 := by
  have h := (c4_release_render_buffer relW 4 false (by decide) (by decide)).2.2
    (by decide) (by decide) (by decide)
  exact ⟨h.2.2.1, h.2.2.2.2.2 (by decide) rfl 1 (by decide)⟩

/-- C5: `AcquireCapture`.  With an acquisition outstanding it fails
`OutOfOrder` before the drain touches anything; otherwise the resampler
drain runs first; with fewer than a period held the empty-buffer status is
returned with zero frames; otherwise exactly `period_frames` frames are
handed out — frame `i` of the handed-out region is ring frame
`(readOffset + i) % bufferFrames`, through the scratch copy when the span
wraps — with the device position `written_frames` and the converted
performance-counter timestamp. -/
theorem c5_get_capture_buffer (oracle : Nat → ConvStep) (s : Stream) (stamp freq : Nat)
    (hflow : s.flow = EDataFlow.eCapture) :
    (s.getbuf_last ≠ 0 →
       ((get_capture_buffer oracle s stamp freq).result = HResult.AUDCLNT_E_OUT_OF_ORDER ∧
        (get_capture_buffer oracle s stamp freq).st = s ∧
        (get_capture_buffer oracle s stamp freq).frames = 0))
  ∧ (s.getbuf_last = 0 →
     (capture_resample oracle s).held_frames < (capture_resample oracle s).period_frames →
       ((get_capture_buffer oracle s stamp freq).result = HResult.AUDCLNT_S_BUFFER_EMPTY ∧
        (get_capture_buffer oracle s stamp freq).frames = 0 ∧
        (get_capture_buffer oracle s stamp freq).st = capture_resample oracle s))
  ∧ (s.getbuf_last = 0 →
     (capture_resample oracle s).period_frames ≤ (capture_resample oracle s).held_frames →
     (capture_resample oracle s).lcl_offs_frames < (capture_resample oracle s).bufsize_frames →
     (capture_resample oracle s).period_frames ≤ (capture_resample oracle s).bufsize_frames →
       ((get_capture_buffer oracle s stamp freq).result = HResult.S_OK ∧
        (get_capture_buffer oracle s stamp freq).frames
            = (capture_resample oracle s).period_frames ∧
        (get_capture_buffer oracle s stamp freq).st.getbuf_last
            = ((capture_resample oracle s).period_frames : Int) ∧
        (get_capture_buffer oracle s stamp freq).devpos
            = (capture_resample oracle s).written_frames ∧
        (get_capture_buffer oracle s stamp freq).qpcpos = stamp * 10000000 / freq ∧
        (∀ i, i < (capture_resample oracle s).period_frames →
           read_ptr (get_capture_buffer oracle s stamp freq).st
               (get_capture_buffer oracle s stamp freq).data i
             = (capture_resample oracle s).local_buffer
                 (((capture_resample oracle s).lcl_offs_frames + i)
                    % (capture_resample oracle s).bufsize_frames)))) := by
  refine ⟨?_, ?_, ?_⟩
  · intro h1
    refine ⟨?_, ?_, ?_⟩ <;> simp [get_capture_buffer, h1]
  · intro h1 h2
    refine ⟨?_, ?_, ?_⟩ <;> simp [get_capture_buffer, h1, h2]
  · intro h1 h2 h3 h4
    have hnlt : ¬ (capture_resample oracle s).held_frames
        < (capture_resample oracle s).period_frames := by omega
    by_cases hw : (capture_resample oracle s).bufsize_frames
        - (capture_resample oracle s).lcl_offs_frames
        < (capture_resample oracle s).period_frames
    · refine ⟨?_, ?_, ?_, ?_, ?_, ?_⟩ <;>
        simp [get_capture_buffer, h1, hnlt, hw, read_ptr]
      intro i hi
      have hrc := ring_read_copy (capture_resample oracle s).tmp_buffer
        (capture_resample oracle s).local_buffer (capture_resample oracle s).lcl_offs_frames
        (capture_resample oracle s).bufsize_frames (capture_resample oracle s).period_frames
        h3 h4 i hi
      rw [if_pos hw] at hrc
      exact hrc
    · refine ⟨?_, ?_, ?_, ?_, ?_, ?_⟩ <;>
        simp [get_capture_buffer, h1, hnlt, hw, read_ptr]
      intro i hi
      have hmod : ((capture_resample oracle s).lcl_offs_frames + i)
            % (capture_resample oracle s).bufsize_frames
          = (capture_resample oracle s).lcl_offs_frames + i :=
        Nat.mod_eq_of_lt (by omega)
      rw [hmod]

/-- Capture stream for the C5 witness: nothing pending in the raw ring, one
full period held at read offset 8 so the handed-out span wraps. -/
def capW : Stream :=
  { baseStream with flow := EDataFlow.eCapture, lcl_offs_frames := 8,
                    held_frames := 4, wri_offs_frames := 2 }

/-- Witness for C5: acquiring from `capW` returns one period and frame 3 of
the handed-out region is ring frame `(8+3) % 10`. -/
theorem c5_get_capture_buffer_w :
    (get_capture_buffer bugOracle capW 7 2).frames
        = (capture_resample bugOracle capW).period_frames ∧
    read_ptr (get_capture_buffer bugOracle capW 7 2).st
        (get_capture_buffer bugOracle capW 7 2).data 3
      = (capture_resample bugOracle capW).local_buffer
          (((capture_resample bugOracle capW).lcl_offs_frames + 3)
             % (capture_resample bugOracle capW).bufsize_frames) := by
  have h := (c5_get_capture_buffer bugOracle capW 7 2 rfl).2.2 rfl
    (by decide) (by decide) (by decide)
  exact ⟨h.2.1, h.2.2.2.2.2 3 (by decide)⟩

/-- C6: `ReleaseCapture`.  With `n` frames outstanding, any nonzero count
other than exactly `n` fails `InvalidSize`; releasing exactly `n` succeeds,
advancing the read offset modulo the ring size, shrinking the held count
and growing the written count by `n`, and clearing the marker; a positive
release with nothing outstanding fails `OutOfOrder`. -/
theorem c6_release_capture_buffer (s : Stream) :
    (∀ n done : Nat, s.getbuf_last = (n : Int) → 0 < n → done ≠ 0 → done ≠ n →
       (release_capture_buffer s done).2 = HResult.AUDCLNT_E_INVALID_SIZE)
  ∧ (∀ n : Nat, s.getbuf_last = (n : Int) → 0 < n → n ≤ s.held_frames →
       ((release_capture_buffer s n).2 = HResult.S_OK ∧
        (release_capture_buffer s n).1.lcl_offs_frames
            = (s.lcl_offs_frames + n) % s.bufsize_frames ∧
        (release_capture_buffer s n).1.held_frames = s.held_frames - n ∧
        (release_capture_buffer s n).1.written_frames = s.written_frames + n ∧
        (release_capture_buffer s n).1.getbuf_last = 0))
  ∧ (∀ done : Nat, s.getbuf_last = 0 → 0 < done →
       (release_capture_buffer s done).2 = HResult.AUDCLNT_E_OUT_OF_ORDER) := by
  refine ⟨?_, ?_, ?_⟩
  · intro n done h1 h2 h3 h4
    have hne : ¬ s.getbuf_last = 0 := by rw [h1]; omega
    have hnd : s.getbuf_last ≠ (done : Int) := by rw [h1]; omega
    simp [release_capture_buffer, h3, hne, hnd]
  · intro n h1 h2 h3
    have hne : ¬ s.getbuf_last = 0 := by rw [h1]; omega
    have hn0 : ¬ n = 0 := by omega
    refine ⟨?_, ?_, ?_, ?_, ?_⟩ <;> simp [release_capture_buffer, hn0, hne, h1]
  · intro done h1 h2
    have hd0 : ¬ done = 0 := by omega
    simp [release_capture_buffer, hd0, h1]

/-- Capture stream for the C6 witness: 4 frames outstanding, 6 held. -/
def capRel : Stream :=
  { baseStream with flow := EDataFlow.eCapture, getbuf_last := 4,
                    held_frames := 6, lcl_offs_frames := 8, wri_offs_frames := 4 }

/-- Witness for C6: releasing 3 of the 4 outstanding frames of `capRel`
fails `InvalidSize`; releasing exactly 4 wraps the read offset to
`(8+4) % 10` and leaves 2 frames held. -/
theorem c6_release_capture_buffer_w :
    (release_capture_buffer capRel 3).2 = HResult.AUDCLNT_E_INVALID_SIZE ∧
    (release_capture_buffer capRel 4).1.lcl_offs_frames
        = (capRel.lcl_offs_frames + 4) % capRel.bufsize_frames ∧
    (release_capture_buffer capRel 4).1.held_frames = capRel.held_frames - 4 := by
  have h := c6_release_capture_buffer capRel
  exact ⟨h.1 4 3 rfl (by decide) (by decide) (by decide),
         (h.2.1 4 rfl (by decide) (by decide)).2.1,
         (h.2.1 4 rfl (by decide) (by decide)).2.2.1⟩

/-- On natural inputs with a positive divisor and an in-range result,
`muldiv` is the round-to-nearest quotient. -/
theorem muldiv_of_nat (p hw cl : Nat) (hcl : 0 < cl)
    (hb : (p * hw + cl / 2) / cl ≤ 2147483647) :
    muldiv (↑p) (↑hw) (↑cl) = (((p * hw + cl / 2) / cl : Nat) : Int) := by
  have hc0 : ¬ ((cl : Int) = 0) := by omega
  have hclt : ¬ ((cl : Int) < 0) := by omega
  simp only [muldiv]
  rw [if_neg hc0, if_neg hclt, if_neg hclt]
  have hcond : ((p : Int) < 0 ∧ (hw : Int) < 0) ∨ (0 ≤ (p : Int) ∧ 0 ≤ (hw : Int)) :=
    Or.inr ⟨by omega, by omega⟩
  rw [if_pos hcond]
  have hret : Int.tdiv ((p : Int) * (hw : Int) + Int.tdiv (cl : Int) 2) (cl : Int)
      = (((p * hw + cl / 2) / cl : Nat) : Int) := by
    have h1 : Int.tdiv ((cl : Int)) 2 = ((cl / 2 : Nat) : Int) := rfl
    rw [h1]
    have h2 : ((p : Int)) * (hw : Int) + ((cl / 2 : Nat) : Int)
        = ((p * hw + cl / 2 : Nat) : Int) := by
      push_cast
      ring
    rw [h2]
    rfl
  have hfin : ¬ (Int.tdiv ((p : Int) * (hw : Int) + Int.tdiv (cl : Int) 2) (cl : Int)
        > 2147483647
      ∨ Int.tdiv ((p : Int) * (hw : Int) + Int.tdiv (cl : Int) 2) (cl : Int)
        < -2147483647) := by
    rw [hret]
    push_neg
    refine ⟨?_, ?_⟩
    · exact_mod_cast hb
    · exact le_trans (by norm_num) (Int.natCast_nonneg _)
  rw [if_neg hfin, hret]

/-- One resampling iteration leaves the raw ring with exactly the unclamped
held count minus the clamped pull. -/
theorem resample_step_cap_held (s : Stream) (pull : Nat) (out : Buf) (wanted : Nat)
    (hpull : 1 ≤ pull) (hheld : 1 ≤ s.cap_held_frames) :
    (resample_insert (resample_feed s pull) out wanted).cap_held_frames
      = s.cap_held_frames - min pull s.cap_held_frames := by
  have hne : ¬ min pull s.cap_held_frames = 0 := by omega
  simp only [resample_insert]
  rw [apply_ite (fun st : Stream => st.cap_held_frames)]
  simp only [ite_self]
  simp only [resample_feed]
  rw [if_neg hne]

/-- The resampling loop is insensitive to fuel beyond the raw held count as
long as every converter call pulls at least one raw frame: it terminates
within `cap_held_frames` iterations. -/
theorem capture_resample_loop_fuel (oracle : Nat → ConvStep) (rp : Nat)
    (hpull : ∀ j, 1 ≤ (oracle j).pull) :
    ∀ n k s f1 f2, s.cap_held_frames ≤ n → s.cap_held_frames < f1 →
      s.cap_held_frames < f2 →
      capture_resample_loop oracle rp k f1 s = capture_resample_loop oracle rp k f2 s := by
  intro n
  induction n with
  | zero =>
    intro k s f1 f2 hn h1 h2
    obtain ⟨f1', rfl⟩ : ∃ m, f1 = m + 1 := ⟨f1 - 1, by omega⟩
    obtain ⟨f2', rfl⟩ : ∃ m, f2 = m + 1 := ⟨f2 - 1, by omega⟩
    rw [capture_resample_loop, capture_resample_loop, if_neg (by omega), if_neg (by omega)]
  | succ n ih =>
    intro k s f1 f2 hn h1 h2
    obtain ⟨f1', rfl⟩ : ∃ m, f1 = m + 1 := ⟨f1 - 1, by omega⟩
    obtain ⟨f2', rfl⟩ : ∃ m, f2 = m + 1 := ⟨f2 - 1, by omega⟩
    rw [capture_resample_loop, capture_resample_loop]
    by_cases hg : s.cap_held_frames > rp * 2
    · rw [if_pos hg, if_pos hg]
      by_cases hok : (oracle k).ok = true
      · rw [if_pos hok, if_pos hok]
        have hch := resample_step_cap_held s (oracle k).pull (oracle k).out
          (min (oracle k).produced s.period_frames) (hpull k) (by omega)
        apply ih
        · rw [hch]
          have := hpull k
          omega
        · rw [hch]
          have := hpull k
          omega
        · rw [hch]
          have := hpull k
          omega
      · rw [if_neg hok, if_neg hok]
    · rw [if_neg hg, if_neg hg]

/-- C7: the capture resampler drain.  The resampling period is
`periodFrames * hardwareRate / clientRate` rounded to nearest; the loop
does nothing unless the raw ring holds strictly more than twice that; with
every converter call consuming raw input the loop terminates within the
fuel `cap_held_frames + 1` the embedding supplies (more fuel changes
nothing); a converter failure ends the loop at once, leaving the client
ring — offsets, held count and contents — exactly as the previous
iterations left it; and each successful iteration inserts exactly one
period-sized chunk, advancing the client write offset by `period_frames`
modulo the ring size and growing the held count to at most the capacity. -/
theorem c7_capture_resample :
    (∀ s : Stream, 0 < s.fmt.nSamplesPerSec →
       (s.period_frames * s.dev_sampleRate + s.fmt.nSamplesPerSec / 2)
           / s.fmt.nSamplesPerSec ≤ 2147483647 →
       resamp_period s
         = (s.period_frames * s.dev_sampleRate + s.fmt.nSamplesPerSec / 2)
             / s.fmt.nSamplesPerSec)
  ∧ (∀ (oracle : Nat → ConvStep) (s : Stream),
       s.cap_held_frames ≤ resamp_period s * 2 → capture_resample oracle s = s)
  ∧ (∀ (oracle : Nat → ConvStep) (s : Stream) (extra : Nat),
       (∀ j, 1 ≤ (oracle j).pull) →
       capture_resample_loop oracle (resamp_period s) 0 (s.cap_held_frames + 1 + extra) s
         = capture_resample oracle s)
  ∧ (∀ (oracle : Nat → ConvStep) (rp k fuel : Nat) (s : Stream),
       rp * 2 < s.cap_held_frames → (oracle k).ok = false →
       ((capture_resample_loop oracle rp k (fuel + 1) s).held_frames = s.held_frames ∧
        (capture_resample_loop oracle rp k (fuel + 1) s).wri_offs_frames
            = s.wri_offs_frames ∧
        (capture_resample_loop oracle rp k (fuel + 1) s).lcl_offs_frames
            = s.lcl_offs_frames ∧
        (capture_resample_loop oracle rp k (fuel + 1) s).local_buffer = s.local_buffer))
  ∧ (∀ (oracle : Nat → ConvStep) (rp k fuel : Nat) (s : Stream),
       rp * 2 < s.cap_held_frames → (oracle k).ok = true →
       capture_resample_loop oracle rp k (fuel + 1) s
         = capture_resample_loop oracle rp (k + 1) fuel
             (resample_insert (resample_feed s (oracle k).pull) (oracle k).out
               (min (oracle k).produced s.period_frames)))
  ∧ (∀ (s : Stream) (out : Buf) (prod : Nat), s.period_frames ≤ prod →
       ((resample_insert s out (min prod s.period_frames)).wri_offs_frames
           = (s.wri_offs_frames + s.period_frames) % s.bufsize_frames ∧
        (resample_insert s out (min prod s.period_frames)).held_frames
           = min (s.held_frames + s.period_frames) s.bufsize_frames)) := by
  refine ⟨?_, ?_, ?_, ?_, ?_, ?_⟩
  · intro s hcl hbound
    have hm := muldiv_of_nat s.period_frames s.dev_sampleRate s.fmt.nSamplesPerSec hcl hbound
    rw [resamp_period, hm]
    have h232 : (2 : Int) ^ 32 = 4294967296 := by norm_num
    rw [h232, Int.emod_eq_of_lt (Int.natCast_nonneg _)
          (by exact_mod_cast Nat.lt_of_le_of_lt hbound (by norm_num)),
        Int.toNat_natCast]
  · intro oracle s hle
    rw [capture_resample, capture_resample_loop, if_neg (by omega)]
  · intro oracle s extra hpull
    exact capture_resample_loop_fuel oracle (resamp_period s) hpull s.cap_held_frames 0 s
      (s.cap_held_frames + 1 + extra) (s.cap_held_frames + 1) (le_refl _) (by omega) (by omega)
  · intro oracle rp k fuel s hg hok
    have hnok : ¬ (oracle k).ok = true := by simp [hok]
    rw [capture_resample_loop, if_pos hg, if_neg hnok]
    refine ⟨?_, ?_, ?_, ?_⟩ <;> (simp only [resample_feed]; split <;> rfl)
  · intro oracle rp k fuel s hg hok
    rw [capture_resample_loop, if_pos hg, if_pos hok]
  · intro s out prod hprod
    have hmin : min prod s.period_frames = s.period_frames := by omega
    rw [hmin]
    constructor
    · simp only [resample_insert]
      rw [apply_ite (fun st : Stream => st.wri_offs_frames)]
      simp only [ite_self]
    · simp only [resample_insert]
      rw [apply_ite (fun st : Stream => st.held_frames)]
      split_ifs with h
      · simp only []
        omega
      · simp only []
        omega

/-- Witness for C7: on the idle `baseStream` (empty raw ring) the drain is
the identity, and one successful insertion of a full period into `capW`
advances its client write offset from 2 to `(2+4) % 10 = 6`. -/
theorem c7_capture_resample_w :
    capture_resample bugOracle baseStream = baseStream ∧
    (resample_insert capW zeroBuf (min 7 capW.period_frames)).wri_offs_frames
      = (capW.wri_offs_frames + capW.period_frames) % capW.bufsize_frames := by
  refine ⟨c7_capture_resample.2.1 bugOracle baseStream (by decide), ?_⟩
  exact (c7_capture_resample.2.2.2.2.2 capW zeroBuf 7 (by decide)).1

/-- C8: `Reset` fails `NotStopped` while playing and
`BufferOperationPending` with an acquisition outstanding; otherwise it
zeros the held count, both client-ring offsets and both raw-ring counters,
zeroing `written_frames` on a render stream and folding the held frames
into it on a capture stream. -/
theorem c8_reset (s : Stream) :
    (s.playing = true → reset s = (s, HResult.AUDCLNT_E_NOT_STOPPED))
  ∧ (s.playing = false → s.getbuf_last ≠ 0 →
       reset s = (s, HResult.AUDCLNT_E_BUFFER_OPERATION_PENDING))
  ∧ (s.playing = false → s.getbuf_last = 0 →
       ((reset s).2 = HResult.S_OK ∧
        (reset s).1.held_frames = 0 ∧
        (reset s).1.lcl_offs_frames = 0 ∧
        (reset s).1.wri_offs_frames = 0 ∧
        (reset s).1.cap_offs_frames = 0 ∧
        (reset s).1.cap_held_frames = 0 ∧
        (s.flow = EDataFlow.eRender → (reset s).1.written_frames = 0) ∧
        (s.flow = EDataFlow.eCapture →
           (reset s).1.written_frames = s.written_frames + s.held_frames))) := by
  refine ⟨?_, ?_, ?_⟩
  · intro h
    simp [reset, h]
  · intro h1 h2
    simp [reset, h1, h2]
  · intro h1 h2
    refine ⟨?_, ?_, ?_, ?_, ?_, ?_, ?_, ?_⟩
    · simp [reset, h1, h2]
    · simp [reset, h1, h2]
    · simp [reset, h1, h2]
    · simp [reset, h1, h2]
    · simp [reset, h1, h2]
    · simp [reset, h1, h2]
    · intro hf
      simp [reset, h1, h2, hf]
    · intro hf
      simp [reset, h1, h2, hf]

/-- Witness for C8: resetting the stopped, acquisition-free render
`baseStream` succeeds and zeroes its written count. -/
theorem c8_reset_w :
    (reset baseStream).2 = HResult.S_OK ∧ (reset baseStream).1.written_frames = 0 := by
  have h := (c8_reset baseStream).2.2 rfl rfl
  exact ⟨h.1, h.2.2.2.2.2.2.1 rfl⟩

/-- C10: with nothing outstanding, a zero-frame `ReleaseRender` or
`ReleaseCapture` still succeeds — the zero-frame abandon branch runs before
the outstanding-acquisition check — and leaves the stream unchanged. -/
theorem c10_release_zero (s : Stream) (silent : Bool) (h : s.getbuf_last = 0) :
    release_render_buffer s 0 silent = (s, HResult.S_OK) ∧
    release_capture_buffer s 0 = (s, HResult.S_OK) := by
  have hs : { s with getbuf_last := 0 } = s := by
    cases s
    simp_all
  constructor
  · simp [release_render_buffer, hs]
  · simp [release_capture_buffer, hs]

/-- Witness for C10: both zero-frame releases on the idle `baseStream`. -/
theorem c10_release_zero_w :
    release_render_buffer baseStream 0 true = (baseStream, HResult.S_OK) ∧
    release_capture_buffer baseStream 0 = (baseStream, HResult.S_OK) :=
  c10_release_zero baseStream true rfl

/-- C9: every recoverable failure — `OutOfOrder`, `InvalidSize`,
`BufferTooLarge`, `NotStopped`, `BufferOperationPending`, `OutOfMemory` —
of the client-visible operations leaves the enumerated shared state (both
rings' offsets and held counts, the written count, the
outstanding-acquisition marker, the playing flag) exactly as it was. -/
theorem c9_recoverable_errors_preserve_state (oracle : Nat → ConvStep) :
    (∀ (s : Stream) (f : Nat) (aOk : Bool), s.flow = EDataFlow.eRender →
       ((get_render_buffer oracle s f aOk).2.1 = HResult.AUDCLNT_E_OUT_OF_ORDER ∨
        (get_render_buffer oracle s f aOk).2.1 = HResult.AUDCLNT_E_BUFFER_TOO_LARGE ∨
        (get_render_buffer oracle s f aOk).2.1 = HResult.E_OUTOFMEMORY) →
       visible_eq s (get_render_buffer oracle s f aOk).1)
  ∧ (∀ (s : Stream) (f : Nat) (silent : Bool),
       ((release_render_buffer s f silent).2 = HResult.AUDCLNT_E_OUT_OF_ORDER ∨
        (release_render_buffer s f silent).2 = HResult.AUDCLNT_E_INVALID_SIZE) →
       visible_eq s (release_render_buffer s f silent).1)
  ∧ (∀ (s : Stream) (stamp freq : Nat),
       (get_capture_buffer oracle s stamp freq).result = HResult.AUDCLNT_E_OUT_OF_ORDER →
       visible_eq s (get_capture_buffer oracle s stamp freq).st)
  ∧ (∀ (s : Stream) (done : Nat),
       ((release_capture_buffer s done).2 = HResult.AUDCLNT_E_OUT_OF_ORDER ∨
        (release_capture_buffer s done).2 = HResult.AUDCLNT_E_INVALID_SIZE) →
       visible_eq s (release_capture_buffer s done).1)
  ∧ (∀ s : Stream,
       ((reset s).2 = HResult.AUDCLNT_E_NOT_STOPPED ∨
        (reset s).2 = HResult.AUDCLNT_E_BUFFER_OPERATION_PENDING) →
       visible_eq s (reset s).1)
  ∧ (∀ s : Stream, (start s).2 = HResult.AUDCLNT_E_NOT_STOPPED →
       visible_eq s (start s).1) := by
  refine ⟨?_, ?_, ?_, ?_, ?_, ?_⟩
  · intro s f aOk hflow hr
    have hps : pad_state oracle s = s := by simp [pad_state, hflow]
    simp only [get_render_buffer, hps] at hr ⊢
    split_ifs at hr ⊢ <;> simp_all [visible_eq]
  · intro s f silent hr
    simp only [release_render_buffer] at hr ⊢
    split_ifs at hr ⊢ <;> simp_all [visible_eq]
  · intro s stamp freq hr
    simp only [get_capture_buffer] at hr ⊢
    split_ifs at hr ⊢ <;> simp_all [visible_eq]
  · intro s done hr
    simp only [release_capture_buffer] at hr ⊢
    split_ifs at hr ⊢ <;> simp_all [visible_eq]
  · intro s hr
    simp only [reset] at hr ⊢
    split_ifs at hr ⊢ <;> simp_all [visible_eq]
  · intro s hr
    simp only [start] at hr ⊢
    split_ifs at hr ⊢ <;> simp_all [visible_eq]

/-- A playing stream, for the C9 witness. -/
def playStream : Stream := { baseStream with playing := true }

/-- Witness for C9: `reset` on the playing stream fails `NotStopped` and
leaves the visible state untouched. -/
theorem c9_recoverable_errors_preserve_state_w :
    visible_eq playStream (reset playStream).1 :=
  (c9_recoverable_errors_preserve_state bugOracle).2.2.2.2.1 playStream (Or.inl rfl)

end WineCoreAudio
